import Mathlib

/-!
Verification of the state-aggregation and positioner logic of pcds-devices.

The definitions below are shallow embeddings of the Python source:
  * `pcdsdevices/epics/state.py` (`PVState.value`, `SubscriptionStatus`,
    `StateStatus`),
  * `pcdsdevices/inout.py` (`InOutPositioner`: `transmission`, `insert`,
    `remove`, `_pos_in_list`),
  * `pcdsdevices/lodcm.py` (`LODCM.destination`, `LODCM._dia_clear`, `Foil`),
  * `pcdsdevices/epics/lodcm.py` (`LODCM.destination` table lookup),
  * `pcdsdevices/epics_motor.py` (`PCDSMotorBase.check_value`,
    `IMS._clear_flag`).

Python dictionaries are modelled as association lists with first-match
lookup (an insertion conses at the front, so a later insertion of the same
key wins, as it does for a Python dict); Python `None` and exceptions are
modelled with `Option`; EPICS readbacks are modelled as `Nat`/`Int`/`String`
as the source reads them.  `math.nan` appears only as a sentinel value in
the source, never in arithmetic, so transmission ratios are modelled as
`Option ℚ` with `none` standing for NaN.
-/

namespace Pcds

/-- Lookup in a Python dict modelled as an association list: the first
matching key wins. -/
def alookup {α β : Type} [DecidableEq α] : List (α × β) → α → Option β
  | [], _ => none
  | (k, v) :: rest, key => if key = k then some v else alookup rest key

@[simp] theorem alookup_nil {α β : Type} [DecidableEq α] (key : α) :
    alookup ([] : List (α × β)) key = none := rfl

@[simp] theorem alookup_cons {α β : Type} [DecidableEq α] (k : α) (v : β)
    (rest : List (α × β)) (key : α) :
    alookup ((k, v) :: rest) key = if key = k then some v else alookup rest key := rfl

/-! ## PVState.value (`pcdsdevices/epics/state.py`, lines 87-113)

One entry of `PVState._states`: the signal's interpretation table
(raw readback to state entry) together with the signal's current raw
readback (`state_signal.get(use_monitor=True)`). -/

structure PVSignal where
  table : List (Nat × String)
  readback : Nat

/-- The loop of `PVState.value`, with the running `state_value` made
explicit.  `acc = none` models `state_value = None`; a `KeyError` (readback
missing from the table) or an `AssertionError` (two different truthy
non-defer entries) sets the result to `"unknown"` and breaks; the final
`state_value or 'unknown'` maps `None` and the empty string to
`"unknown"`.  Note the Python truthiness test `if state_value:` is false
for the empty string as well as for `None`. -/
def pvValueAux : List PVSignal → Option String → String
  | [], acc =>
    match acc with
    | none => "unknown"
    | some s => if s = "" then "unknown" else s
  | sig :: rest, acc =>
    match alookup sig.table sig.readback with
    | none => "unknown"
    | some st =>
      if st = "defer" then pvValueAux rest acc
      else
        match acc with
        | none => pvValueAux rest (some st)
        | some prev =>
          if prev = "" then pvValueAux rest (some st)
          else if st = prev then pvValueAux rest (some st)
          else "unknown"

/-- `PVState.value`: aggregate the raw readbacks of all state signals, in
table order, into one discrete named state. -/
def pvstate_value (sigs : List PVSignal) : String :=
  pvValueAux sigs none

/-- Whether some signal's readback has no entry in its table (a `KeyError`
in the source). -/
def anyMissing : List PVSignal → Bool
  | [] => false
  | sig :: rest => (alookup sig.table sig.readback).isNone || anyMissing rest

/-- The non-`"defer"` table entries of the signals whose readback is in the
table, in order. -/
def nondefers : List PVSignal → List String
  | [] => []
  | sig :: rest =>
    match alookup sig.table sig.readback with
    | none => nondefers rest
    | some st => if st = "defer" then nondefers rest else st :: nondefers rest

/-- The claim's reading of `PVState.value`, written from its words: a
`defer` entry is skipped, otherwise the entry becomes the result; a missing
entry or two different non-defer entries give `"unknown"`; all-defer gives
`"unknown"`. -/
def specValue (sigs : List PVSignal) : String :=
  let looked := sigs.map (fun s => alookup s.table s.readback)
  if looked.any (fun o => o.isNone) then "unknown"
  else
    match (looked.filterMap id).filter (fun v => !(v == "defer")) with
    | [] => "unknown"
    | v :: rest => if rest.all (fun w => w == v) then v else "unknown"

/-- Merge of a running value with a list of non-defer entries: the unique
common value, or `"unknown"` on a conflict or when nothing was seen. -/
def mergeVals (acc : Option String) (vals : List String) : String :=
  match acc, vals with
  | none, [] => "unknown"
  | none, v :: rest => if rest.all (fun w => w == v) then v else "unknown"
  | some a, vs => if vs.all (fun w => w == a) then a else "unknown"

/-- What `pvValueAux` computes from a given accumulator, described
non-recursively.  Used as the bridge between `pvstate_value` and
`specValue`. -/
def mergeSpec (acc : Option String) (sigs : List PVSignal) : String :=
  if anyMissing sigs then "unknown" else mergeVals acc (nondefers sigs)

theorem alookup_mem {α β : Type} [DecidableEq α] (l : List (α × β)) (key : α)
    (v : β) (h : alookup l key = some v) : ∃ k, (k, v) ∈ l := by
  induction l with
  | nil => simp [alookup] at h
  | cons p rest ih =>
    obtain ⟨k0, v0⟩ := p
    rw [alookup_cons] at h
    by_cases hk : key = k0
    · rw [if_pos hk] at h
      exact ⟨k0, by simp [Option.some_inj.mp h]⟩
    · rw [if_neg hk] at h
      obtain ⟨k, hkmem⟩ := ih h
      exact ⟨k, List.mem_cons_of_mem _ hkmem⟩

theorem pvValueAux_eq_mergeSpec (sigs : List PVSignal)
    (h : ∀ sig ∈ sigs, ∀ p ∈ sig.table, p.2 ≠ "") (acc : Option String)
    (hacc : acc = none ∨ ∃ v, acc = some v ∧ v ≠ "") :
    pvValueAux sigs acc = mergeSpec acc sigs := by
  induction sigs generalizing acc with
  | nil =>
    rcases hacc with h0 | ⟨v, hv, hne⟩
    · subst h0
      simp [pvValueAux, mergeSpec, anyMissing, nondefers, mergeVals]
    · subst hv
      simp [pvValueAux, mergeSpec, anyMissing, nondefers, mergeVals, hne]
  | cons sig rest ih =>
    have hsig : ∀ p ∈ sig.table, p.2 ≠ "" := h sig (List.mem_cons_self _ _)
    have hrest : ∀ s ∈ rest, ∀ p ∈ s.table, p.2 ≠ "" :=
      fun s hs => h s (List.mem_cons_of_mem _ hs)
    cases hl : alookup sig.table sig.readback with
    | none => simp [pvValueAux, mergeSpec, anyMissing, hl]
    | some st =>
      have hst : st ≠ "" := by
        obtain ⟨k, hk⟩ := alookup_mem _ _ _ hl
        exact hsig (k, st) hk
      by_cases hd : st = "defer"
      · subst hd
        have e1 : pvValueAux (sig :: rest) acc = pvValueAux rest acc := by
          simp [pvValueAux, hl]
        have e2 : mergeSpec acc (sig :: rest) = mergeSpec acc rest := by
          simp [mergeSpec, anyMissing, nondefers, hl]
        rw [e1, e2]
        exact ih hrest acc hacc
      · rcases hacc with h0 | ⟨v, hv, hne⟩
        · subst h0
          have e1 : pvValueAux (sig :: rest) none = pvValueAux rest (some st) := by
            simp [pvValueAux, hl, hd]
          rw [e1, ih hrest (some st) (Or.inr ⟨st, rfl, hst⟩)]
          simp [mergeSpec, anyMissing, nondefers, mergeVals, hl, hd]
        · subst hv
          by_cases hsa : st = v
          · subst hsa
            have e1 : pvValueAux (sig :: rest) (some st) = pvValueAux rest (some st) := by
              simp [pvValueAux, hl, hd, hne]
            rw [e1, ih hrest (some st) (Or.inr ⟨st, rfl, hst⟩)]
            simp [mergeSpec, anyMissing, nondefers, mergeVals, hl, hd]
          · have e1 : pvValueAux (sig :: rest) (some v) = "unknown" := by
              simp [pvValueAux, hl, hd, hne, hsa]
            rw [e1]
            simp [mergeSpec, anyMissing, nondefers, mergeVals, hl, hd, hsa,
              Ne.symm hsa]

theorem anyMissing_eq (sigs : List PVSignal) :
    (sigs.map (fun s => alookup s.table s.readback)).any (fun o => o.isNone)
      = anyMissing sigs := by
  induction sigs with
  | nil => rfl
  | cons sig rest ih => simp [anyMissing, ih]

theorem nondefers_eq (sigs : List PVSignal) :
    (sigs.filterMap (fun s => alookup s.table s.readback)).filter
        (fun v => !(v == "defer"))
      = nondefers sigs := by
  induction sigs with
  | nil => rfl
  | cons sig rest ih =>
    cases hl : alookup sig.table sig.readback with
    | none => simp [nondefers, hl, ih]
    | some st =>
      by_cases hd : st = "defer"
      · subst hd
        simp [nondefers, hl, ih]
      · simp [nondefers, hl, hd, ih]

theorem specValue_eq_mergeSpec (sigs : List PVSignal) :
    specValue sigs = mergeSpec none sigs := by
  simp only [specValue, mergeSpec, List.filterMap_map, Function.id_comp]
  rw [anyMissing_eq, nondefers_eq]
  cases nondefers sigs <;> simp [mergeVals]

/-- C2: for every `PVState` device the `value` property aggregates the raw
readbacks of all state signals in table order: a `'defer'` entry is
skipped, otherwise the entry becomes the result; a readback missing from
its table or two different non-defer entries give `'unknown'`, and so does
everyone deferring — amended to require that no table entry is the empty
string (Python's `if state_value:` truthiness test treats the empty string
like `None`, so an empty-string entry escapes the conflict check). -/
theorem C2_pvstate_value_aggregates (sigs : List PVSignal)
    (h : ∀ sig ∈ sigs, ∀ p ∈ sig.table, p.2 ≠ "") :
    pvstate_value sigs = specValue sigs := by
  rw [specValue_eq_mergeSpec]
  exact pvValueAux_eq_mergeSpec sigs h none (Or.inl rfl)

/-- C2 witness: a concrete two-signal device (one deferring readback, one
giving `'IN'`) evaluated through the theorem. -/
theorem C2_pvstate_value_witness :
    pvstate_value [⟨[(0, "OUT"), (1, "defer")], 1⟩, ⟨[(0, "OUT"), (1, "IN")], 1⟩]
      = specValue [⟨[(0, "OUT"), (1, "defer")], 1⟩, ⟨[(0, "OUT"), (1, "IN")], 1⟩] :=
  C2_pvstate_value_aggregates
    [⟨[(0, "OUT"), (1, "defer")], 1⟩, ⟨[(0, "OUT"), (1, "IN")], 1⟩] (by decide)

/-- C2 counterexample to the claim as stated: with an empty-string table
entry, two signals yield different non-defer entries (`""` and `"IN"`) yet
`value` returns `"IN"`, not `'unknown'` as the claim demands (and as
`specValue`, the claim's words, computes). -/
theorem C2_pvstate_value_counterexample :
    pvstate_value [⟨[(0, "")], 0⟩, ⟨[(0, "IN")], 0⟩] = "IN"
      ∧ specValue [⟨[(0, "")], 0⟩, ⟨[(0, "IN")], 0⟩] = "unknown"
      ∧ ("" : String) ≠ "defer" ∧ ("IN" : String) ≠ "defer"
      ∧ ("" : String) ≠ "IN" ∧ ("IN" : String) ≠ "unknown" := by
  decide

/-! ## InOutPositioner (`pcdsdevices/inout.py`)

A positioner class configuration: its state list, its IN and OUT state
lists and its `_transmission` class mapping.  `get_state` and `position`
live in `pcdsdevices/state.py`, which is not part of the repository files
here; they are modelled from the spec: a state positioner "reports/moves
between a small set of named discrete states", so `get_state` is the
identity on state names and the current position is a plain state-name
string. -/

structure InOutConf where
  states_list : List String
  in_states : List String
  out_states : List String
  transMap : List (String × ℚ)

/-- `InOutPositioner._pos_in_list`: walk `state_list` and compare each
entry with the current state (with `get_state` modelled as the identity
on state names). -/
def pos_in_list (current : String) : List String → Bool
  | [] => false
  | s :: rest => if current = s then true else pos_in_list current rest

/-- `InOutPositioner.inserted`. -/
def inserted (c : InOutConf) (position : String) : Bool :=
  pos_in_list position c.in_states

/-- `InOutPositioner.removed`. -/
def removed (c : InOutConf) (position : String) : Bool :=
  pos_in_list position c.out_states

/-- `InOutPositioner._extend_trans_enum`: for each state of `state_list`
insert `_transmission.get(state, default)` into the accumulated
`_trans_enum` dict (an insertion conses at the front, so a later insertion
wins on lookup, as a Python dict assignment does). -/
def extendTransEnum (tm : List (String × ℚ)) (acc : List (String × ℚ)) :
    List String → ℚ → List (String × ℚ)
  | [], _ => acc
  | s :: rest, dflt => extendTransEnum tm ((s, (alookup tm s).getD dflt) :: acc) rest dflt

/-- `_trans_enum` as `InOutPositioner.__init__` builds it: `in_states` with
default 0, then `out_states` with default 1. -/
def trans_enum (c : InOutConf) : List (String × ℚ) :=
  extendTransEnum c.transMap (extendTransEnum c.transMap [] c.in_states 0)
    c.out_states 1

/-- `InOutPositioner.transmission`: `self._trans_enum.get(state, math.nan)`;
`none` models `math.nan`. -/
def transmission (c : InOutConf) (position : String) : Option ℚ :=
  alookup (trans_enum c) position

/-- The action a positioner method requests of the framework: `nullStatus`
is ophyd's `NullStatus()` — an already-finished status, no move issued —
and `moveTo t` is `self.move(t, ...)`. -/
inductive MoveAction where
  | nullStatus : MoveAction
  | moveTo : String → MoveAction
deriving DecidableEq

/-- `InOutPositioner.insert`: move to `in_states[0]`; `none` models the
`IndexError` raised when `in_states` is empty. -/
def insert (c : InOutConf) : Option MoveAction :=
  c.in_states.head?.map MoveAction.moveTo

/-- `InOutPositioner.remove`: `NullStatus()` when already removed, else a
move to `out_states[0]` (`none` models the `IndexError` on an empty
`out_states`). -/
def remove (c : InOutConf) (position : String) : Option MoveAction :=
  if removed c position then some MoveAction.nullStatus
  else c.out_states.head?.map MoveAction.moveTo

theorem alookup_extendTransEnum (tm : List (String × ℚ)) (acc : List (String × ℚ))
    (states : List String) (dflt : ℚ) (key : String) :
    alookup (extendTransEnum tm acc states dflt) key
      = if pos_in_list key states then some ((alookup tm key).getD dflt)
        else alookup acc key := by
  induction states generalizing acc with
  | nil => simp [extendTransEnum, pos_in_list]
  | cons s rest ih =>
    rw [extendTransEnum, ih]
    by_cases hk : key = s
    · subst hk
      by_cases hr : pos_in_list key rest = true
      · simp [pos_in_list, hr]
      · simp [pos_in_list, hr]
    · by_cases hr : pos_in_list key rest = true
      · simp [pos_in_list, hr, hk]
      · simp [pos_in_list, hr, hk]

/-- C4 counterexample to the claim as stated: a positioner whose
`_transmission` maps a state (`"WEIRD"`) that is in `states_list` but in
neither `in_states` nor `out_states`.  The claim says `transmission`
returns the `_transmission` value `1/2` there; the code's `_trans_enum`
only ever holds `in_states` and `out_states` entries, so `transmission`
returns NaN (`none`). -/
theorem C4_transmission_counterexample :
    transmission ⟨["IN", "OUT", "WEIRD"], ["IN"], ["OUT"], [("WEIRD", 1/2)]⟩ "WEIRD"
        = none
      ∧ alookup [("WEIRD", (1/2 : ℚ))] "WEIRD" = some (1/2)
      ∧ (none : Option ℚ) ≠ some (1/2) := by
  refine ⟨rfl, rfl, by decide⟩

/-- C4 (amended): `transmission` returns the `_transmission` value for the
current state when that state is in `out_states` or `in_states` (with the
defaults 1 and 0 when `_transmission` has no entry, and `out_states`
winning for a state listed in both), and NaN (`none`) for a state in
neither list — the `_transmission` mapping is only consulted for states of
the two lists. -/
theorem C4_transmission_lookup (c : InOutConf) (position : String) :
    transmission c position
      = if pos_in_list position c.out_states then
          some ((alookup c.transMap position).getD 1)
        else if pos_in_list position c.in_states then
          some ((alookup c.transMap position).getD 0)
        else none := by
  rw [transmission, trans_enum, alookup_extendTransEnum, alookup_extendTransEnum]
  simp

/-- C9: `InOutPositioner.remove` on a device already at any `out_states`
state — not only `out_states[0]` — returns `NullStatus()` (no move is
issued, the device state is untouched); only when the device is not
removed does it request a move to `out_states[0]`. -/
theorem C9_remove_noop_when_removed (c : InOutConf) (position : String) :
    (removed c position = true → remove c position = some MoveAction.nullStatus)
      ∧ (removed c position = false →
          remove c position = c.out_states.head?.map MoveAction.moveTo) := by
  constructor
  · intro h
    rw [remove, if_pos h]
  · intro h
    rw [remove, if_neg (by simp [h])]

/-- `Foil.__init__` (`pcdsdevices/lodcm.py`, lines 43-53): `in_states`
depends on whether the prefix contains `'XPP'` or `'XCS'`. -/
def listStartsWith : List Char → List Char → Bool
  | [], _ => true
  | _ :: _, [] => false
  | a :: as, b :: bs => if a = b then listStartsWith as bs else false

/-- Substring test over the characters of a string, modelling Python's
`needle in haystack`. -/
def listHasSub (needle : List Char) : List Char → Bool
  | [] => needle.isEmpty
  | c :: rest => listStartsWith needle (c :: rest) || listHasSub needle rest

/-- Python `needle in hay` on strings. -/
def strContains (hay needle : String) : Bool :=
  listHasSub needle.data hay.data

/-- `Foil.__init__`: the `in_states` chosen from the prefix. -/
def foilInStates (pfx : String) : List String :=
  if strContains pfx "XPP" then ["Mo", "Zr", "Zn", "Cu", "Ni", "Fe", "Ti"]
  else if strContains pfx "XCS" then ["Mo", "Zr", "Ge", "Cu", "Ni", "Fe", "Ti"]
  else []

/-- `Foil.__init__`: `states_list = ['OUT'] + self.in_states`. -/
def foilStatesList (pfx : String) : List String :=
  "OUT" :: foilInStates pfx

/-- The `Foil` device as an `InOutConf` (class `out_states` default
`['OUT']`, class `_transmission` default `{}`). -/
def foilConf (pfx : String) : InOutConf :=
  ⟨foilStatesList pfx, foilInStates pfx, ["OUT"], []⟩

/-- C10: a `Foil` whose prefix mentions neither `'XPP'` nor `'XCS'` has
empty `in_states` and `states_list = ['OUT']`; `inserted` is false in every
state and `insert` fails (`in_states` has no first element, the move target
is `none`). -/
theorem C10_foil_no_hutch (pfx : String) (position : String)
    (hxpp : strContains pfx "XPP" = false)
    (hxcs : strContains pfx "XCS" = false) :
    (foilConf pfx).in_states = []
      ∧ (foilConf pfx).states_list = ["OUT"]
      ∧ inserted (foilConf pfx) position = false
      ∧ insert (foilConf pfx) = none := by
  have hin : foilInStates pfx = [] := by
    rw [foilInStates, if_neg (by simp [hxpp]), if_neg (by simp [hxcs])]
  refine ⟨hin, ?_, ?_, ?_⟩
  · rw [foilConf]
    simp [foilStatesList, hin]
  · rw [inserted]
    simp [foilConf, hin, pos_in_list]
  · rw [insert]
    simp [foilConf, hin]

/-- C10 witness: a concrete prefix naming neither hutch. -/
theorem C10_foil_no_hutch_witness :
    (foilConf "SXR:FOIL").in_states = []
      ∧ (foilConf "SXR:FOIL").states_list = ["OUT"]
      ∧ inserted (foilConf "SXR:FOIL") "OUT" = false
      ∧ insert (foilConf "SXR:FOIL") = none :=
  C10_foil_no_hutch "SXR:FOIL" "OUT" (by decide) (by decide)

/-! ## LODCM (`pcdsdevices/lodcm.py`)

The diagnostic child classes, as `InOutConf` values.  `YagLom`, `Diode`
and `Foil` inherit `out_states = ['OUT']` from `InOutPositioner`;
`Dectris` overrides it with `['OUT', 'OUTLOW']`. -/

def yagLomConf : InOutConf :=
  ⟨["OUT", "YAG", "SLIT1", "SLIT2", "SLIT3"],
   ["YAG", "SLIT1", "SLIT2", "SLIT3"], ["OUT"], []⟩

def dectrisConf : InOutConf :=
  ⟨["OUT", "DECTRIS", "SLIT1", "SLIT2", "SLIT3", "OUTLOW"],
   ["DECTRIS", "SLIT1", "SLIT2", "SLIT3"], ["OUT", "OUTLOW"], []⟩

def diodeConf : InOutConf :=
  ⟨["OUT", "IN"], ["IN"], ["OUT"], []⟩

/-- The observable state of one LODCM device: the H1N position, the
positions of the four diagnostics, and the beamline-name lists passed to
`__init__`. -/
structure LODCMState where
  position : String
  yag : String
  dectris : String
  foil : String
  diode : String
  main_line : List String
  mono_line : List String

/-- A member of the Python list `LODCM.destination` returns.  The source
builds it either from strings (the beamline names) or — through
`list(itertools.chain((self.mono_line, self.main_line)))`, `chain` applied
to ONE tuple whose two elements are the lists themselves — from whole
lists, so an element is a string or a list of strings. -/
inductive PyItem where
  | str : String → PyItem
  | lst : List String → PyItem
deriving DecidableEq

/-- `LODCM._dia_clear`: the conjunction of `yag.removed`,
`dectris.removed` and `foil.removed` (the diode is not consulted).  The
foil of an XPP/XCS LODCM is at `'OUT'` exactly when removed, whatever its
prefix, since `Foil.out_states` is always `['OUT']`; we take the foil's
`out_states` directly. -/
def lodcm_dia_clear (s : LODCMState) : Bool :=
  removed yagLomConf s.yag && removed dectrisConf s.dectris
    && pos_in_list s.foil ["OUT"]

/-- `LODCM.destination` (`pcdsdevices/lodcm.py`, lines 110-134), branch by
branch: `main_line` at `'OUT'`; `mono_line` at `'Si'` with clear
diagnostics; at `'C'`, `list(itertools.chain((mono_line, main_line)))` —
which is the two-element list holding `mono_line` and `main_line` as list
elements, not their concatenation — when clear, else `main_line`; the
empty list otherwise. -/
def lodcm_destination (s : LODCMState) : List PyItem :=
  if s.position = "OUT" then s.main_line.map PyItem.str
  else if s.position = "Si" && lodcm_dia_clear s then s.mono_line.map PyItem.str
  else if s.position = "C" then
    if lodcm_dia_clear s then [PyItem.lst s.mono_line, PyItem.lst s.main_line]
    else s.main_line.map PyItem.str
  else []

/-- C1: at position `'C'` with all diagnostics removed and the default
beamline names, `destination` evaluates to the nested two-element list
`[mono_line, main_line]` — a list whose elements are lists — and not to the
flat concatenation of beamline-name strings the claim (and the method's
own docstring, "``list`` of ``str``") describes. -/
theorem C1_destination_nested_at_C :
    lodcm_destination ⟨"C", "OUT", "OUT", "OUT", "OUT", ["MAIN"], ["MONO"]⟩
        = [PyItem.lst ["MONO"], PyItem.lst ["MAIN"]]
      ∧ lodcm_destination ⟨"C", "OUT", "OUT", "OUT", "OUT", ["MAIN"], ["MONO"]⟩
          ≠ [PyItem.str "MONO", PyItem.str "MAIN"] := by
  refine ⟨rfl, by decide⟩

/-- C8: `destination` never reads the diode's state — `_dia_clear` is the
conjunction of `yag.removed`, `dectris.removed` and `foil.removed` only —
so two LODCM configurations differing solely in the diode's position get
the same destination. -/
theorem C8_destination_ignores_diode (s : LODCMState) (d d' : String) :
    lodcm_destination
        ⟨s.position, s.yag, s.dectris, s.foil, d, s.main_line, s.mono_line⟩
      = lodcm_destination
        ⟨s.position, s.yag, s.dectris, s.foil, d', s.main_line, s.mono_line⟩ := rfl

/-! ## epics-module LODCM (`pcdsdevices/epics/lodcm.py`)

`destination(line)` is a pure lookup over the `h1n` and `h2n` state values;
the model covers the two light lines the claim describes (`MAIN`, the
default, and `MONO`). -/

/-- `("OUT", "C", "Si").index(value)`: the index in the ordering, `none`
for the `ValueError` on any other value. -/
def idx3 (s : String) : Option Nat :=
  if s = "OUT" then some 0
  else if s = "C" then some 1
  else if s = "Si" then some 2
  else none

/-- The hardcoded 3x3 main-line table, rows indexed by H1N, columns by
H2N, over the ordering (OUT, C, Si). -/
def mainTable : List (List String) :=
  [["MAIN", "MAIN", "MAIN"],
   ["MAIN", "BOTH", "MAIN"],
   ["BLOCKED", "BLOCKED", "MONO"]]

/-- The starting line of the beam for `destination`. -/
inductive LightLine where
  | main : LightLine
  | mono : LightLine
deriving DecidableEq

/-- `LODCM.destination` of the epics module: with `MAIN`, the `mainTable`
entry at `(h1n, h2n)` or `"UNKNOWN"` when either value fails to index; with
`MONO`, the `["MONO", "BLOCKED", "BLOCKED"]` entry at `h2n` or
`"UNKNOWN"`. -/
def epics_destination (line : LightLine) (h1n h2n : String) : String :=
  match line with
  | .main =>
    match idx3 h1n, idx3 h2n with
    | some n1, some n2 => ((mainTable.getD n1 []).getD n2 "")
    | _, _ => "UNKNOWN"
  | .mono =>
    match idx3 h2n with
    | some n2 => ["MONO", "BLOCKED", "BLOCKED"].getD n2 ""
    | none => "UNKNOWN"

/-- C3: `destination` on the main line returns `'BOTH'` exactly at
`(C, C)`, `'MONO'` exactly at `(Si, Si)`, `'BLOCKED'` whenever H1N is
`'Si'` and H2N is `'OUT'` or `'C'`, and `'UNKNOWN'` whenever either state
is outside `{OUT, C, Si}`; on the mono line it returns `'MONO'` for H2N
`'OUT'`, `'BLOCKED'` for `'C'` or `'Si'`, and `'UNKNOWN'` otherwise. -/
theorem C3_epics_destination_table (h1n h2n : String) :
    (epics_destination LightLine.main h1n h2n = "BOTH"
        ↔ (h1n = "C" ∧ h2n = "C"))
      ∧ (epics_destination LightLine.main h1n h2n = "MONO"
        ↔ (h1n = "Si" ∧ h2n = "Si"))
      ∧ ((h1n = "Si" ∧ (h2n = "OUT" ∨ h2n = "C")) →
          epics_destination LightLine.main h1n h2n = "BLOCKED")
      ∧ ((idx3 h1n = none ∨ idx3 h2n = none) →
          epics_destination LightLine.main h1n h2n = "UNKNOWN")
      ∧ (epics_destination LightLine.mono h1n h2n = "MONO" ↔ h2n = "OUT")
      ∧ (epics_destination LightLine.mono h1n h2n = "BLOCKED"
        ↔ (h2n = "C" ∨ h2n = "Si"))
      ∧ (idx3 h2n = none → epics_destination LightLine.mono h1n h2n = "UNKNOWN") := by
  by_cases e1 : h1n = "OUT" <;> by_cases e2 : h1n = "C" <;> by_cases e3 : h1n = "Si" <;>
    by_cases f1 : h2n = "OUT" <;> by_cases f2 : h2n = "C" <;> by_cases f3 : h2n = "Si" <;>
      simp_all [epics_destination, idx3, mainTable]

/-! ## PCDSMotorBase.check_value (`pcdsdevices/epics_motor.py`, lines 200-236)

The `.SPG` field is a three-choice EPICS enum (Stop, Pause, Go); the
membership tests `value in [0, 'Stop']` and `value in [1, 'Pause']` accept
the readback in integer or string form, so the readback is modelled as the
choice itself. -/

inductive SpgRead where
  | stop : SpgRead
  | pause : SpgRead
  | go : SpgRead
deriving DecidableEq

structure MotorState where
  disabled : Int
  spg : SpgRead
  low_soft_limit : ℚ
  high_soft_limit : ℚ

/-- The outcome of `check_value`: which exception is raised, or a normal
return. -/
inductive CheckResult where
  | disabledErr : CheckResult
  | stoppedErr : CheckResult
  | pausedErr : CheckResult
  | limitErr : CheckResult
  | ok : CheckResult
deriving DecidableEq

/-- `PCDSMotorBase.check_value`: raise when disabled (`.DISP` reads 1),
when `.SPG` reads Stop or Pause, raise `LimitError` when the value is not
within `low_limit <= value <= high_limit`, else return normally.
(`super().check_value` consults no limits since `user_setpoint` is built
with `limits=False`.) -/
def check_value (m : MotorState) (v : ℚ) : CheckResult :=
  if m.disabled = 1 then CheckResult.disabledErr
  else if m.spg = SpgRead.stop then CheckResult.stoppedErr
  else if m.spg = SpgRead.pause then CheckResult.pausedErr
  else if ¬(m.low_soft_limit ≤ v ∧ v ≤ m.high_soft_limit) then CheckResult.limitErr
  else CheckResult.ok

/-- C5 counterexample to the claim as stated: a disabled motor asked to
move outside its soft limits raises the generic disabled exception, not
`LimitError`, although the value lies outside the closed limit interval —
so "raises LimitError exactly when the value lies outside" fails. -/
theorem C5_check_value_counterexample :
    check_value ⟨1, SpgRead.go, 0, 1⟩ 5 = CheckResult.disabledErr
      ∧ CheckResult.disabledErr ≠ CheckResult.limitErr
      ∧ ¬((0 : ℚ) ≤ 5 ∧ (5 : ℚ) ≤ 1) := by
  decide

/-- C5 (amended): `check_value` raises whenever the motor is disabled or
SPG reads Stop or Pause; it raises `LimitError` exactly when the motor is
enabled, set to Go, and the value lies outside the closed soft-limit
interval; it returns normally exactly when the motor is enabled, set to
Go, and the value is within the soft limits. -/
theorem C5_check_value_cases (m : MotorState) (v : ℚ) :
    ((m.disabled = 1 ∨ m.spg = SpgRead.stop ∨ m.spg = SpgRead.pause) →
        check_value m v ≠ CheckResult.ok)
      ∧ (check_value m v = CheckResult.limitErr
        ↔ (m.disabled ≠ 1 ∧ m.spg = SpgRead.go
            ∧ ¬(m.low_soft_limit ≤ v ∧ v ≤ m.high_soft_limit)))
      ∧ (check_value m v = CheckResult.ok
        ↔ (m.disabled ≠ 1 ∧ m.spg = SpgRead.go
            ∧ m.low_soft_limit ≤ v ∧ v ≤ m.high_soft_limit)) := by
  obtain ⟨d, spg, llm, hlm⟩ := m
  cases spg <;> unfold check_value <;> split_ifs <;> simp_all

/-! ## Subscription statuses

`SubscriptionStatus` (`pcdsdevices/epics/state.py`, lines 283-347, and the
equivalent ophyd class used by `epics_motor.py`) subscribes a boolean
callback to a device; every delivery runs `check_value`, and a truthy
callback marks the status finished with success and clears the
subscription (`_finished` calls `device.clear_sub` before completing).
The delivery mechanism itself belongs to the control-system framework; it
is modelled as a fold over the list of values the device shows the
callback, in order. -/

structure SubState where
  finished : Bool
  subscribed : Bool
deriving DecidableEq

/-- One delivery: while subscribed, a truthy callback finishes the status
and removes the subscription; an unsubscribed status sees nothing. -/
def subStep {α : Type} (p : α → Bool) (st : SubState) (v : α) : SubState :=
  if st.subscribed then (if p v then ⟨true, false⟩ else st) else st

/-- The status after the device has shown the callback `events`, in
order, starting unfinished and subscribed. -/
def subRun {α : Type} (p : α → Bool) (events : List α) : SubState :=
  events.foldl (subStep p) ⟨false, true⟩

theorem foldl_subStep_done {α : Type} (p : α → Bool) (l : List α) :
    l.foldl (subStep p) ⟨true, false⟩ = ⟨true, false⟩ := by
  induction l with
  | nil => rfl
  | cons v rest ih => simpa [subStep] using ih

theorem subRun_spec {α : Type} (p : α → Bool) (events : List α) :
    (subRun p events).finished = events.any p
      ∧ (subRun p events).subscribed = !(events.any p) := by
  induction events with
  | nil => exact ⟨rfl, rfl⟩
  | cons v rest ih =>
    by_cases hp : p v = true
    · have : subRun p (v :: rest) = ⟨true, false⟩ := by
        simp only [subRun, List.foldl_cons, subStep, if_pos rfl, hp, if_pos]
        exact foldl_subStep_done p rest
      simp [this, List.any_cons, hp]
    · have : subRun p (v :: rest) = subRun p rest := by
        simp [subRun, List.foldl_cons, subStep, hp]
      simp [this, List.any_cons, hp, ih]

/-- `StateStatus(device, desired_state)`: the callback is
`device.value == desired_state`, subscribed with `run=True`, so it is
checked once at creation (against `initial`, the device's value then) and
at every later `SUB_STATE` notification (`notifications` holds the
device's value at each). -/
def state_status_run (initial : String) (notifications : List String)
    (desired : String) : SubState :=
  subRun (fun v => v == desired) (initial :: notifications)

/-- C7: a `StateStatus` is finished with success exactly when the device's
value equalled `desired_state` at creation or at some later state-change
notification, and on finishing its check is removed from the device's
subscriptions (it stays subscribed otherwise). -/
theorem C7_state_status_finishes (initial desired : String)
    (notifications : List String) :
    ((state_status_run initial notifications desired).finished = true
        ↔ (initial = desired ∨ desired ∈ notifications))
      ∧ (state_status_run initial notifications desired).subscribed
        = !(state_status_run initial notifications desired).finished := by
  obtain ⟨h1, h2⟩ := subRun_spec (fun v => v == desired) (initial :: notifications)
  constructor
  · rw [state_status_run, h1]
    simp [List.any_cons, List.any_eq_true]
  · rw [state_status_run, h1, h2]

/-! ## IMS._clear_flag (`pcdsdevices/epics_motor.py`, lines 354-377) -/

inductive Flag where
  | powerup : Flag
  | stall : Flag
  | error : Flag
deriving DecidableEq

/-- `IMS._bit_flags[flag]['clear']`. -/
def bit_flags_clear : Flag → Nat
  | .powerup => 36
  | .stall => 40
  | .error => 48

/-- `IMS._bit_flags[flag]['readback']`. -/
def bit_flags_readback : Flag → Nat
  | .powerup => 24
  | .stall => 22
  | .error => 15

/-- `IMS._bit_flags[flag].get('mask', 1)`: only the error flag carries a
mask (0x7f). -/
def bit_flags_mask : Flag → Nat
  | .powerup => 1
  | .stall => 1
  | .error => 0x7f

/-- `flag_is_cleared(value)`: `not bool((int(value) >> bit) & mask)`. -/
def flag_is_cleared (f : Flag) (value : Nat) : Bool :=
  ((value >>> bit_flags_readback f) &&& bit_flags_mask f) == 0

/-- What `_clear_flag` does: return an already-done successful
`DeviceStatus` without touching `seq_seln`, or write a clear code to
`seq_seln` and return a `SubscriptionStatus` on `bit_status`. -/
inductive ClearAction where
  | alreadyDone : ClearAction
  | issued : Nat → ClearAction
deriving DecidableEq

/-- `IMS._clear_flag`: already-done status when the masked bit of the
current `bit_status` readback is clear, else write
`_bit_flags[flag]['clear']` to `seq_seln`. -/
def clear_flag (f : Flag) (msta : Nat) : ClearAction :=
  if flag_is_cleared f msta then ClearAction.alreadyDone
  else ClearAction.issued (bit_flags_clear f)

/-- C6: for each flag, `_clear_flag` returns an already-done successful
status and issues no command when the flag's masked readback field of
`bit_status` is already clear; otherwise it writes that flag's clear code
to `seq_seln` and returns a `SubscriptionStatus` on `bit_status` that
completes exactly when some delivered readback has the masked field
clear. -/
theorem C6_clear_flag_cases (f : Flag) (msta : Nat) (events : List Nat) :
    (flag_is_cleared f msta = true → clear_flag f msta = ClearAction.alreadyDone)
      ∧ (flag_is_cleared f msta = false →
          clear_flag f msta = ClearAction.issued (bit_flags_clear f))
      ∧ ((subRun (flag_is_cleared f) events).finished = true
        ↔ ∃ v ∈ events, (v >>> bit_flags_readback f) &&& bit_flags_mask f = 0) := by
  refine ⟨fun h => by rw [clear_flag, if_pos h],
    fun h => by rw [clear_flag, if_neg (by simp [h])], ?_⟩
  rw [(subRun_spec (flag_is_cleared f) events).1]
  simp [flag_is_cleared, List.any_eq_true]

end Pcds
